import Mathlib

/-!
# Verification of the equalify-viewer ingestion and parsing core

Shallow embedding of the repository's core logic:

* `src/unnamed/part_002` — the violation message parser (`parseMessages`,
  `FRIENDLY_TITLES`, rule resolution, help-URL extraction);
* `src/unnamed/part_003` — the ignored-id store (`getIgnoredIds`,
  `toggleIgnoreId`, `bulkIgnoreIds`) and the dataset loader (`loadDataset`
  with fallback extraction, auto-pagination, the pageSize=100 corrective
  retry, and display-name derivation);
* `src/src/services/DataManager.ts` — the legacy loader variant without the
  retry, which rejects when `totalCount > 0` but `blockers` is empty.

Strings are embedded as `List Char` in the computational core; the browser
builtins the code relies on (`String.prototype.trim/split/replace/indexOf`,
`JSON.parse`/`JSON.stringify`, the WHATWG `URL`/`URLSearchParams` API,
`fetch`) are modelled explicitly below, each as an executable Lean function
with the JavaScript semantics the code exercises (first-occurrence replace,
greedy left-to-right split on a literal separator, `-1`-style `indexOf`,
`set`-replaces-first-and-drops-later-duplicates for search params, and so
on).  Network and clock are parameters (`net`, `Env`).
-/

namespace EV

/-- JavaScript whitespace (the ASCII part used by `trim` and `\s`). -/
def isJsWs (c : Char) : Bool :=
  c = ' ' || c = '\t' || c = '\n' || c = '\r' ||
  c = Char.ofNat 11 || c = Char.ofNat 12 || c = Char.ofNat 160

/-- `String.prototype.trim` on a character list. -/
def trimL (l : List Char) : List Char :=
  ((l.dropWhile isJsWs).reverse.dropWhile isJsWs).reverse

/-- `rawMessage.split(' | ')`: greedy left-to-right split on the literal
three-character separator, accumulator-style. -/
def splitBar (acc : List Char) : List Char → List (List Char)
  | ' ' :: '|' :: ' ' :: rest => acc.reverse :: splitBar [] rest
  | c :: rest => splitBar (c :: acc) rest
  | [] => [acc.reverse]

/-- Number of (non-overlapping, greedy left-to-right) occurrences of the
separator `" | "`, matching the scan `split` performs. -/
def countBar : List Char → Nat
  | ' ' :: '|' :: ' ' :: rest => countBar rest + 1
  | _ :: rest => countBar rest
  | [] => 0

/-- `clean.replace(/""/g, '"')`: global, non-overlapping replacement of a
doubled quote by a single quote. -/
def replaceDq : List Char → List Char
  | '"' :: '"' :: rest => '"' :: replaceDq rest
  | c :: rest => c :: replaceDq rest
  | [] => []

/-- `s.substring(a, b)` — JavaScript swaps the endpoints when `a > b`. -/
def jsSubstringL (l : List Char) (a b : Nat) : List Char :=
  ((l.take (max a b)).drop (min a b))

/-- `s.replace(pat, '')` for a string pattern: replace the first occurrence
of `pat` (if any) by `repl`. -/
def replaceFirstOcc (pat repl : List Char) : List Char → List Char
  | [] => if pat.isEmpty then repl else []
  | c :: cs =>
    if pat.isPrefixOf (c :: cs) then repl ++ (c :: cs).drop pat.length
    else c :: replaceFirstOcc pat repl cs

/-- `haystack.includes(needle)` — substring containment. -/
def containsSub (pat : List Char) : List Char → Bool
  | [] => pat.isEmpty
  | c :: cs => pat.isPrefixOf (c :: cs) || containsSub pat cs

/-- `s.indexOf(c)` with JavaScript's `-1`-on-absence convention. -/
def jsIndexOf (l : List Char) (c : Char) : Int :=
  if c ∈ l then (l.indexOf c : Int) else -1

/-- One attempt of the regex `More information: (https?:\/\/[^\s]+)` at the
current position: the literal label, then `https://` or `http://` (the
optional `s` tried greedily first), then a maximal nonempty run of
non-whitespace characters.  Returns `(whole match, captured URL)`. -/
def moreInfoAt (l : List Char) : Option (List Char × List Char) :=
  let label := "More information: ".data
  if label.isPrefixOf l then
    let rest := l.drop label.length
    if "https://".data.isPrefixOf rest then
      let tok := (rest.drop 8).takeWhile (fun c => !isJsWs c)
      if tok.isEmpty then none
      else some (label ++ "https://".data ++ tok, "https://".data ++ tok)
    else if "http://".data.isPrefixOf rest then
      let tok := (rest.drop 7).takeWhile (fun c => !isJsWs c)
      if tok.isEmpty then none
      else some (label ++ "http://".data ++ tok, "http://".data ++ tok)
    else none
  else none

/-- `clean.match(/More information: (https?:\/\/[^\s]+)/)`: first position
(left to right) where the pattern matches. -/
def findMoreInfo : List Char → Option (List Char × List Char)
  | [] => none
  | c :: cs =>
    match moreInfoAt (c :: cs) with
    | some r => some r
    | none => findMoreInfo cs

/-- The `FRIENDLY_TITLES` dictionary of `part_002`, in object insertion
order (first-match-wins iteration order of `Object.entries`). -/
def friendlyTitles : List (String × String) :=
  [("aria-labelledby attribute does not exist, references elements that do not exist or references elements that are empty", "Missing Label"),
   ("Element has insufficient color contrast", "Low Color Contrast"),
   ("Link Name Rule", "Missing Link Text"),
   ("Image Alt Rule", "Missing Image Alt Text"),
   ("Form element does not have an implicit (wrapped) <label>", "Missing Form Label"),
   ("Form element does not have an explicit <label>", "Missing Form Label"),
   ("Element has no title attribute", "Missing Title Attribute"),
   ("aria-label attribute does not exist or is empty", "Missing ARIA Label"),
   ("Element does not have text that is visible to screen readers", "No Screen Reader Text"),
   ("Frame Title Rule", "Missing Frame Title"),
   ("Button Name Rule", "Missing Button Name"),
   ("Link In Text Block Rule", "Poor Link Distinction"),
   ("Select Name Rule", "Missing Select Name"),
   ("Aria Roles Rule", "Invalid ARIA Role"),
   ("Nested Interactive Rule", "Nested Interactive Controls"),
   ("Element's default semantics were not overridden with role=\"none\" or role=\"presentation\"", "Redundant Image"),
   ("Aria Hidden Focus Rule", "Focusable Hidden Element"),
   ("Role Img Alt Rule", "Missing Role=Img Alt Text"),
   ("Aria Required Children Rule", "Missing Required ARIA Children")]

/-- First dictionary key (in insertion order) contained in the text, if
any; yields its friendly title. -/
def firstFriendly (l : List Char) : Option String :=
  (friendlyTitles.find? fun kv => containsSub kv.1.data l).map (·.2)

/-- `clean.match(/^\[([^\]]+)\]/)`: a leading bracketed tag with a nonempty
inside.  Returns `(tag, whole bracketed match)`. -/
def bracketMatch : List Char → Option (List Char × List Char)
  | '[' :: rest =>
    let inner := rest.takeWhile (· ≠ ']')
    if inner.isEmpty then none
    else if (rest.dropWhile (· ≠ ']')).isEmpty then none
    else some (inner, '[' :: (inner ++ [']']))
  | _ => none

/-- Rule-title resolution of `part_002` lines 60–88: leading bracketed tag
(removed from the text), else first dictionary key contained in the text
(text unchanged), else the colon heuristic, else `"General Violation"`.
Returns `(rule, remaining text)`. -/
def resolveRule (l : List Char) : String × List Char :=
  match bracketMatch l with
  | some (tag, whole) => (String.mk tag, trimL (replaceFirstOcc whole [] l))
  | none =>
    match firstFriendly l with
    | some title => (title, l)
    | none =>
      let ci := jsIndexOf l ':'
      if 0 < ci ∧ ci < 50 then
        let distinctName := l.take ci.toNat
        if distinctName.contains '\n' = false ∧ 3 < distinctName.length then
          (String.mk (trimL distinctName), l)
        else ("General Violation", l)
      else ("General Violation", l)

/-- `if (clean.startsWith('violation: ')) clean = clean.substring(11).trim()`. -/
def stripViolationLabel (l : List Char) : List Char :=
  if "violation: ".data.isPrefixOf l then trimL (l.drop 11) else l

/-- The CSV-style quote stripping of `part_002` lines 47–50, including the
JavaScript `substring` endpoint swap on a one-character string. -/
def stripQuotes (l : List Char) : List Char :=
  if l.head? = some '"' ∧ l.getLast? = some '"' then
    replaceDq (jsSubstringL l 1 (l.length - 1))
  else l

/-- Help-URL extraction of `part_002` lines 52–58: capture the URL and
remove the whole matched substring from the working text. -/
def extractHelpUrl (l : List Char) : Option String × List Char :=
  match findMoreInfo l with
  | some (whole, url) => (some (String.mk url), trimL (replaceFirstOcc whole [] l))
  | none => (none, l)

/-- `if (description.endsWith('.'))` strip exactly one trailing period. -/
def stripTrailingPeriod (l : List Char) : List Char :=
  if l.getLast? = some '.' then l.dropLast else l

/-- The `ParsedViolation` interface of `part_002`. -/
structure ParsedViolation where
  id : String
  rule : String
  description : String
  helpUrl : Option String
  raw : String
deriving Repr, DecidableEq

/-- The body of the `parts.map((part, index) => ...)` callback. -/
def parsePart (index : Nat) (part : String) : ParsedViolation :=
  let c0 := trimL part.data
  let c1 := stripViolationLabel c0
  let c2 := stripQuotes c1
  let u := extractHelpUrl c2
  let r := resolveRule u.2
  { id := "viol-" ++ toString index
    rule := r.1
    description := String.mk (stripTrailingPeriod r.2)
    helpUrl := u.1
    raw := part }

/-- `parseMessages` of `part_002`: empty input yields `[]`, otherwise split
on `" | "` and parse each part with its index. -/
def parseMessages (rawMessage : String) : List ParsedViolation :=
  if rawMessage = "" then []
  else
    ((splitBar [] rawMessage.data).map String.mk).enum.map
      fun ip => parsePart ip.1 ip.2

/-! ## A model of `JSON.parse` / `JSON.stringify`

`getIgnoredIds` hands the raw stored string to `JSON.parse` with no
try/catch, so its exception behaviour matters.  The grammar below is the
JSON value grammar; numbers are kept as their lexeme. -/

/-- JSON values.  Numbers are kept as their source lexeme. -/
inductive Json where
  | null : Json
  | bool (b : Bool) : Json
  | num (lexeme : String) : Json
  | str (s : String) : Json
  | arr (elems : List Json) : Json
  | obj (fields : List (String × Json)) : Json
deriving Repr

/-- JSON insignificant whitespace. -/
def isJsonWs (c : Char) : Bool :=
  c = ' ' || c = '\t' || c = '\n' || c = '\r'

/-- Skip insignificant whitespace. -/
def skipJsonWs (l : List Char) : List Char := l.dropWhile isJsonWs

/-- Hexadecimal digit value, if any. -/
def hexVal (c : Char) : Option Nat :=
  if '0' ≤ c ∧ c ≤ '9' then some (c.toNat - '0'.toNat)
  else if 'a' ≤ c ∧ c ≤ 'f' then some (c.toNat - 'a'.toNat + 10)
  else if 'A' ≤ c ∧ c ≤ 'F' then some (c.toNat - 'A'.toNat + 10)
  else none

/-- Body of a JSON string after the opening quote: content and remainder. -/
def parseStringAux : List Char → Except String (List Char × List Char)
  | [] => .error "Unterminated string in JSON"
  | '"' :: rest => .ok ([], rest)
  | '\\' :: rest =>
    match rest with
    | '"' :: r => (parseStringAux r).map fun p => ('"' :: p.1, p.2)
    | '\\' :: r => (parseStringAux r).map fun p => ('\\' :: p.1, p.2)
    | '/' :: r => (parseStringAux r).map fun p => ('/' :: p.1, p.2)
    | 'b' :: r => (parseStringAux r).map fun p => (Char.ofNat 8 :: p.1, p.2)
    | 'f' :: r => (parseStringAux r).map fun p => (Char.ofNat 12 :: p.1, p.2)
    | 'n' :: r => (parseStringAux r).map fun p => ('\n' :: p.1, p.2)
    | 'r' :: r => (parseStringAux r).map fun p => ('\r' :: p.1, p.2)
    | 't' :: r => (parseStringAux r).map fun p => ('\t' :: p.1, p.2)
    | 'u' :: a :: b :: c :: d :: r =>
      match hexVal a, hexVal b, hexVal c, hexVal d with
      | some x, some y, some z, some w =>
        (parseStringAux r).map fun p =>
          (Char.ofNat (((x * 16 + y) * 16 + z) * 16 + w) :: p.1, p.2)
      | _, _, _, _ => .error "Bad Unicode escape in JSON"
    | _ => .error "Bad escaped character in JSON"
  | c :: rest =>
    if c.toNat < 32 then .error "Bad control character in JSON string"
    else (parseStringAux rest).map fun p => (c :: p.1, p.2)

/-- A JSON number lexeme (sign, integer part, fraction, exponent). -/
def parseNumber (l : List Char) : Except String (List Char × List Char) :=
  let signRes : List Char × List Char :=
    match l with
    | '-' :: r => (['-'], r)
    | _ => ([], l)
  let sgn := signRes.1
  let l1 := signRes.2
  match l1 with
  | [] => .error "Unexpected end of JSON input"
  | c :: r =>
    if c = '0' ∨ c.isDigit then
      let intRes : List Char × List Char :=
        if c = '0' then (['0'], r)
        else (c :: r.takeWhile Char.isDigit, r.dropWhile Char.isDigit)
      if c = '0' ∧ (intRes.2.head?.elim false Char.isDigit) then
        .error "Unexpected number in JSON"
      else
        let fracRes : Except String (List Char × List Char) :=
          match intRes.2 with
          | '.' :: r2 =>
            let ds := r2.takeWhile Char.isDigit
            if ds.isEmpty then .error "Unterminated fractional number in JSON"
            else .ok ('.' :: ds, r2.dropWhile Char.isDigit)
          | other => .ok ([], other)
        match fracRes with
        | .error e => .error e
        | .ok (fr, r3) =>
          let expRes : Except String (List Char × List Char) :=
            match r3 with
            | 'e' :: r4 =>
              let sgnE : List Char × List Char :=
                match r4 with
                | '+' :: r5 => (['+'], r5) | '-' :: r5 => (['-'], r5) | _ => ([], r4)
              let ds := sgnE.2.takeWhile Char.isDigit
              if ds.isEmpty then .error "Exponent part is missing a number in JSON"
              else .ok ('e' :: (sgnE.1 ++ ds), sgnE.2.dropWhile Char.isDigit)
            | 'E' :: r4 =>
              let sgnE : List Char × List Char :=
                match r4 with
                | '+' :: r5 => (['+'], r5) | '-' :: r5 => (['-'], r5) | _ => ([], r4)
              let ds := sgnE.2.takeWhile Char.isDigit
              if ds.isEmpty then .error "Exponent part is missing a number in JSON"
              else .ok ('E' :: (sgnE.1 ++ ds), sgnE.2.dropWhile Char.isDigit)
            | other => .ok ([], other)
          match expRes with
          | .error e => .error e
          | .ok (ex, r6) => .ok (sgn ++ intRes.1 ++ fr ++ ex, r6)
    else .error "Unexpected token in JSON"

mutual

/-- One JSON value; `fuel` bounds the recursion depth. -/
def parseJsonValue : Nat → List Char → Except String (Json × List Char)
  | 0, _ => .error "JSON input too deeply nested"
  | fuel + 1, l =>
    match skipJsonWs l with
    | [] => .error "Unexpected end of JSON input"
    | 'n' :: r =>
      if "ull".data.isPrefixOf r then .ok (.null, r.drop 3)
      else .error "Unexpected token in JSON"
    | 't' :: r =>
      if "rue".data.isPrefixOf r then .ok (.bool true, r.drop 3)
      else .error "Unexpected token in JSON"
    | 'f' :: r =>
      if "alse".data.isPrefixOf r then .ok (.bool false, r.drop 4)
      else .error "Unexpected token in JSON"
    | '"' :: r => (parseStringAux r).map fun p => (.str (String.mk p.1), p.2)
    | '[' :: r =>
      match skipJsonWs r with
      | ']' :: r2 => .ok (.arr [], r2)
      | _ => parseJsonElems fuel r []
    | '{' :: r =>
      match skipJsonWs r with
      | '}' :: r2 => .ok (.obj [], r2)
      | _ => parseJsonMembers fuel r []
    | c :: r =>
      if c = '-' ∨ c.isDigit then
        (parseNumber (c :: r)).map fun p => (.num (String.mk p.1), p.2)
      else .error "Unexpected token in JSON"

/-- Comma-separated array elements up to the closing bracket. -/
def parseJsonElems : Nat → List Char → List Json → Except String (Json × List Char)
  | 0, _, _ => .error "JSON input too deeply nested"
  | fuel + 1, l, acc =>
    match parseJsonValue fuel l with
    | .error e => .error e
    | .ok (v, r) =>
      match skipJsonWs r with
      | ',' :: r2 => parseJsonElems fuel r2 (v :: acc)
      | ']' :: r2 => .ok (.arr (v :: acc).reverse, r2)
      | _ => .error "Expected comma or bracket after JSON array element"

/-- Comma-separated object members up to the closing brace. -/
def parseJsonMembers : Nat → List Char → List (String × Json) →
    Except String (Json × List Char)
  | 0, _, _ => .error "JSON input too deeply nested"
  | fuel + 1, l, acc =>
    match skipJsonWs l with
    | '"' :: r =>
      match parseStringAux r with
      | .error e => .error e
      | .ok (k, r2) =>
        match skipJsonWs r2 with
        | ':' :: r3 =>
          match parseJsonValue fuel r3 with
          | .error e => .error e
          | .ok (v, r4) =>
            match skipJsonWs r4 with
            | ',' :: r5 => parseJsonMembers fuel r5 ((String.mk k, v) :: acc)
            | '}' :: r5 => .ok (.obj ((String.mk k, v) :: acc).reverse, r5)
            | _ => .error "Expected comma or brace after JSON member"
        | _ => .error "Expected colon after JSON property name"
    | _ => .error "Expected property name in JSON"

end

/-- `JSON.parse`: one value, then nothing but whitespace. -/
def jsonParse (s : String) : Except String Json :=
  match parseJsonValue (2 * s.length + 2) s.data with
  | .error e => .error e
  | .ok (v, rest) =>
    if (skipJsonWs rest).isEmpty then .ok v
    else .error "Unexpected non-whitespace character after JSON"

/-- `JSON.stringify` escaping of one string character. -/
def jsonEscapeChar (c : Char) : List Char :=
  if c = '"' then ['\\', '"']
  else if c = '\\' then ['\\', '\\']
  else if c = '\n' then ['\\', 'n']
  else if c = '\r' then ['\\', 'r']
  else if c = '\t' then ['\\', 't']
  else if c = Char.ofNat 8 then ['\\', 'b']
  else if c = Char.ofNat 12 then ['\\', 'f']
  else [c]

/-- One quoted, escaped array element of `JSON.stringify`. -/
def quotedId (s : String) : List Char :=
  '"' :: ((s.data.map jsonEscapeChar).flatten ++ ['"'])

/-- The comma-joined elements of a stringified array. -/
def jsonIdsBody (ids : List String) : List Char :=
  ((ids.map quotedId).intersperse [',']).flatten

/-- `JSON.stringify` of a string array (what the store persists): no
whitespace, each id quoted and escaped. -/
def stringifyIds (ids : List String) : String :=
  String.mk ('[' :: (jsonIdsBody ids ++ [']']))

/-- Characters `JSON.stringify` leaves unescaped; ids made of these
round-trip through the store verbatim. -/
def PlainChar (c : Char) : Prop :=
  c ≠ '"' ∧ c ≠ '\\' ∧ 32 ≤ c.toNat

instance (c : Char) : Decidable (PlainChar c) :=
  inferInstanceAs (Decidable (c ≠ '"' ∧ c ≠ '\\' ∧ 32 ≤ c.toNat))

/-! ## The ignore-state store (`part_003` lines 31–60)

Storage is the value under the single key `equalify_ignored_ids`, modelled
as `Option String` (`localStorage.getItem` yields `null` or the string).
The mutators operate on the current in-memory id list and return the list
they persist (`newIds`). -/

/-- `STORAGE_KEY` of `part_003`. -/
def STORAGE_KEY : String := "equalify_ignored_ids"

/-- `getIgnoredIds`: `stored ? JSON.parse(stored) : []`.  An absent value —
and, because the empty string is falsy, an empty one — yields `[]`; any
other stored string goes to `JSON.parse`, whose exception propagates (there
is no try/catch).  The result is the raw parsed JSON value (the TypeScript
cast to `string[]` is unchecked). -/
def getIgnoredIds (stored : Option String) : Except String Json :=
  match stored with
  | none => .ok (Json.arr [])
  | some s => if s = "" then .ok (Json.arr []) else jsonParse s

/-- `toggleIgnoreId` on the current id list: remove every occurrence if
present (`indexOf >= 0`), else append. -/
def toggleIgnoreId (id : String) (current : List String) : List String :=
  if current.contains id then current.filter (· ≠ id)
  else current ++ [id]

/-- `new Set(...)`-style insertion-order add. -/
def jsSetAdd (l : List String) (x : String) : List String :=
  if l.contains x then l else l ++ [x]

/-- `Set.prototype.delete` on the insertion-order list. -/
def jsSetDelete (l : List String) (x : String) : List String :=
  l.filter (· ≠ x)

/-- `new Set(array)`: deduplicate keeping first occurrences, in order. -/
def jsSetFromArray (l : List String) : List String :=
  l.foldl jsSetAdd []

/-- `bulkIgnoreIds`: build the set from the current ids, add or delete each
given id, and return `Array.from(set)` (insertion order). -/
def bulkIgnoreIds (ids : List String) (shouldIgnore : Bool)
    (current : List String) : List String :=
  ids.foldl (fun acc id => if shouldIgnore then jsSetAdd acc id else jsSetDelete acc id)
    (jsSetFromArray current)

/-! ## A model of the WHATWG `URL` / `URLSearchParams` builtins

`part_003` uses `new URL(url)`, `url.hostname`, `url.pathname`,
`searchParams.get` and `searchParams.set`, and `URL.prototype.toString`.
The model covers `scheme://host/path?query` URLs with `&`-separated
`key=value` parameters (no percent-decoding, no fragment), which is the
shape the loader manipulates. -/

/-- Split on every character satisfying `p` (boundaries kept as empty
segments), like `String.prototype.split` with a character class. -/
def splitOnP (p : Char → Bool) : List Char → List (List Char)
  | [] => [[]]
  | c :: cs =>
    match splitOnP p cs with
    | [] => [[]]
    | h :: t => if p c then [] :: h :: t else (c :: h) :: t

/-- A parsed URL. -/
structure Url where
  scheme : String
  host : String
  path : String
  query : List (String × String)
deriving Repr, DecidableEq

/-- One `key=value` query segment (`key` alone means an empty value). -/
def parseQueryPair (seg : List Char) : String × String :=
  match seg.dropWhile (· ≠ '=') with
  | '=' :: v => (String.mk (seg.takeWhile (· ≠ '=')), String.mk v)
  | _ => (String.mk (seg.takeWhile (· ≠ '=')), "")

/-- The query string: `&`-separated segments, empty segments dropped
(`URLSearchParams` ignores them). -/
def parseQuery (qs : List Char) : List (String × String) :=
  (((splitOnP (· = '&') qs).filter fun seg => !seg.isEmpty).map parseQueryPair)

/-- `new URL(s)`: `scheme://host[/path][?query]`; an absent path is
normalised to `/` as the browser does.  `none` models the thrown
`TypeError` on malformed input. -/
def parseUrl (s : String) : Option Url :=
  let l := s.data
  let sch := l.takeWhile (· ≠ ':')
  match l.dropWhile (· ≠ ':') with
  | ':' :: '/' :: '/' :: rest =>
    let host := rest.takeWhile fun c => c != '/' && c != '?'
    if host.isEmpty then none
    else
      match rest.dropWhile (fun c => c != '/' && c != '?') with
      | '/' :: more =>
        let path := '/' :: more.takeWhile (· ≠ '?')
        match more.dropWhile (· ≠ '?') with
        | '?' :: qs => some ⟨String.mk sch, String.mk host, String.mk path, parseQuery qs⟩
        | _ => some ⟨String.mk sch, String.mk host, String.mk path, []⟩
      | '?' :: qs => some ⟨String.mk sch, String.mk host, "/", parseQuery qs⟩
      | _ => some ⟨String.mk sch, String.mk host, "/", []⟩
  | _ => none

/-- Query serialisation: `k=v` segments joined by `&`. -/
def queryToString (q : List (String × String)) : List Char :=
  ((q.map fun kv => kv.1.data ++ '=' :: kv.2.data).intersperse ['&']).flatten

/-- `URL.prototype.toString` (href). -/
def toStringU (u : Url) : String :=
  String.mk (u.scheme.data ++ ':' :: '/' :: '/' :: u.host.data ++ u.path.data ++
    (if u.query.isEmpty then [] else '?' :: queryToString u.query))

/-- `searchParams.get(k)`: first value under `k`, `null` when absent. -/
def getParam (q : List (String × String)) (k : String) : Option String :=
  (q.find? fun kv => kv.1 = k).map (·.2)

/-- `searchParams.set(k, v)`: replace the first entry under `k` and drop
the later ones; append when absent. -/
def setParam (q : List (String × String)) (k v : String) : List (String × String) :=
  match q with
  | [] => [(k, v)]
  | (k0, v0) :: rest =>
    if k0 = k then (k, v) :: rest.filter (fun kv => kv.1 ≠ k)
    else (k0, v0) :: setParam rest k v

/-- Queries that serialise/reparse faithfully: no `=`/`&` in keys, no `&`
in values (`URLSearchParams` would percent-encode these). -/
def wfQuery (q : List (String × String)) : Prop :=
  ∀ kv ∈ q, ('=' ∉ kv.1.data ∧ '&' ∉ kv.1.data) ∧ '&' ∉ kv.2.data

/-- URLs that serialise/reparse faithfully; every `parseUrl` output is of
this shape (`parseUrl_wf`). -/
def wfUrl (u : Url) : Prop :=
  ':' ∉ u.scheme.data ∧
  u.host ≠ "" ∧ '/' ∉ u.host.data ∧ '?' ∉ u.host.data ∧
  u.path.data.head? = some '/' ∧ '?' ∉ u.path.data ∧
  wfQuery u.query

/-- `url.hostname`: the host with any `:port` suffix removed. -/
def hostName (u : Url) : List Char := u.host.data.takeWhile (· ≠ ':')

/-- `urlObj.hostname.includes('equalifyapp.com') && urlObj.pathname.includes('/public/')`. -/
def isPublicApi (u : Url) : Bool :=
  containsSub "equalifyapp.com".data (hostName u) && containsSub "/public/".data u.path.data

/-! ## The dataset loader (`part_003` lines 62–244) -/

/-- The `Tag` interface. -/
structure Tag where
  id : String
  content : String
deriving Repr, DecidableEq

/-- The `Blocker` interface. -/
structure Blocker where
  id : String
  created_at : String
  messages : List String
  url : String
  content : String
  categories : List String
  tags : List Tag
deriving Repr, DecidableEq

/-- The `pagination` metadata object. -/
structure Pagination where
  totalPages : Int
  pageSize : Int
  page : Int
  totalCount : Int
deriving Repr, DecidableEq

/-- The `messages` field of a raw fallback item: an array is kept as-is
(`Array.isArray`), anything else is the scalar-or-absent case. -/
inductive MsgField where
  | arr (l : List String)
  | str (s : String)
  | absent
deriving Repr, DecidableEq

/-- A raw item of a fallback array (`auditTable` etc.); `typeField` models
the item's `Type` property (`Type` is reserved in Lean). -/
structure RawItem where
  id : Option String := none
  URL : Option String := none
  url : Option String := none
  messages : MsgField := .absent
  typeField : Option String := none
  created_at : Option String := none
  content : Option String := none
  categories : Option (List String) := none
  tags : Option (List Tag) := none
deriving Repr, DecidableEq

/-- The `ApiResponse` shape plus the fallback keys the loader probes
(`data` is the response's `data` field).  An absent field models both a
missing key and a non-array value where an array is probed. -/
structure ApiResponse where
  audit_name : Option String := none
  audit_id : Option String := none
  pagination : Option Pagination := none
  blockers : Option (List Blocker) := none
  auditTable : Option (List RawItem) := none
  audit_table : Option (List RawItem) := none
  results : Option (List RawItem) := none
  data : Option (List RawItem) := none
  items : Option (List RawItem) := none
  records : Option (List RawItem) := none
  scan_date : Option String := none
deriving Repr, DecidableEq

/-- The `Dataset` interface (the loader never sets `color`/`index`). -/
structure Dataset where
  id : String
  url : String
  name : String
  blockers : List Blocker
  timestamp : Nat
deriving Repr, DecidableEq

/-- Environment: `crypto.randomUUID()` (or the `ds_...` fallback),
`Date.now()` and `new Date().toISOString()`. -/
structure Env where
  genId : String
  nowMs : Nat
  nowIso : String

/-- Outcome of one `fetch` + `response.json()`: network rejection,
non-`ok` HTTP status, JSON body parse failure, or a parsed body. -/
inductive FetchResult where
  | netErr (msg : String)
  | httpErr (status : Int) (statusText : String)
  | badJson (msg : String)
  | ok (body : ApiResponse)

/-- JavaScript `a || b` for an optional string (`""` is falsy). -/
def jsOr (a : Option String) (b : String) : String :=
  match a with
  | some s => if s = "" then b else s
  | none => b

/-- The `extractFromList` helper of `part_003` lines 111–121 (it closes
over the first response's `scan_date`). -/
def extractFromList (env : Env) (scanDate : Option String)
    (list : List RawItem) : List Blocker :=
  list.enum.map fun ii =>
    let index := ii.1
    let item := ii.2
    { id := jsOr item.id ("res_" ++ toString index ++ "_" ++ toString env.nowMs)
      url := jsOr item.URL (jsOr item.url "")
      messages :=
        match item.messages with
        | .arr l => l
        | .str s => [if s = "" then jsOr item.typeField "Resource" else s]
        | .absent => [jsOr item.typeField "Resource"]
      created_at := jsOr scanDate (jsOr item.created_at env.nowIso)
      content := jsOr item.content
        (match item.typeField with
         | some t => if t = "" then "" else "Type: " ++ t
         | none => "")
      categories := item.categories.getD []
      tags := item.tags.getD [] }

/-- First fallback key (in the `fallbackKeys` order) holding a nonempty
array. -/
def firstNonEmptyKey : List (Option (List RawItem)) → Option (List RawItem)
  | [] => none
  | some l :: rest => if l.isEmpty then firstNonEmptyKey rest else some l
  | none :: rest => firstNonEmptyKey rest

/-- The fallback loop of `part_003` lines 124–134 (also reused per page):
probe `auditTable`, `audit_table`, `results`, `data`, `items`, `records`
in order and map the first nonempty array through `extractFromList`. -/
def fallbackExtract (env : Env) (scanDate : Option String)
    (resp : ApiResponse) : List Blocker :=
  match firstNonEmptyKey [resp.auditTable, resp.audit_table, resp.results,
      resp.data, resp.items, resp.records] with
  | some l => extractFromList env scanDate l
  | none => []

/-- The auto-pagination guard of line 142. -/
def autoPagCond (resp : ApiResponse) (u : Url) : Bool :=
  isPublicApi u &&
  (match resp.pagination with
   | some pg => decide (pg.totalPages > 1) && decide (pg.page = 1)
   | none => false)

/-- `totalPages` of the first response (`0` when absent). -/
def totalPagesOf (resp : ApiResponse) : Int :=
  match resp.pagination with
  | some pg => pg.totalPages
  | none => 0

/-- The page numbers `2 .. totalPages` fetched by the pagination loop. -/
def pagesList (totalPages : Int) : List Int :=
  (List.range (totalPages - 1).toNat).map fun i => (2 : Int) + i

/-- Records contributed by one page fetch (lines 145–168): a failed or
non-`ok` or unparsable page is skipped, otherwise the page's `blockers`
or, when empty, its fallback keys. -/
def pageBlockers (net : String → FetchResult) (env : Env)
    (scanDate : Option String) (u : Url) (p : Int) : List Blocker :=
  let pageUrl := toStringU { u with query := setParam u.query "page" (toString p) }
  match net pageUrl with
  | .ok pData =>
    let pBlockers := pData.blockers.getD []
    if pBlockers.isEmpty then fallbackExtract env scanDate pData else pBlockers
  | _ => []

/-- The auto-pagination step: under the guard, append each page's records
in page order. -/
def autoPaginate (net : String → FetchResult) (env : Env)
    (resp : ApiResponse) (u : Url) (base : List Blocker) : List Blocker :=
  if autoPagCond resp u then
    base ++ ((pagesList (totalPagesOf resp)).map
      (pageBlockers net env resp.scan_date u)).flatten
  else base

/-- The full record-extraction pipeline of one `loadDataset` body before
the retry check: primary `blockers`, the fallback keys when empty, then
auto-pagination. -/
def extractedBlockers (net : String → FetchResult) (env : Env)
    (resp : ApiResponse) (u : Url) : List Blocker :=
  let b0 := resp.blockers.getD []
  let b1 := if b0.isEmpty then fallbackExtract env resp.scan_date resp else b0
  autoPaginate net env resp u b1

/-- The pageSize-bug retry guard of line 175. -/
def retryCond (resp : ApiResponse) (u : Url) (blockers : List Blocker) : Bool :=
  blockers.isEmpty &&
  (match resp.pagination with
   | some pg => decide (pg.totalCount > 0)
   | none => false) &&
  isPublicApi u &&
  !(getParam u.query "pageSize" == some "100")

/-- The rewritten retry URL: `pageSize=100`, `page=1` (lines 177–179). -/
def retryUrl (u : Url) : Url :=
  { u with query := setParam (setParam u.query "pageSize" "100") "page" "1" }

/-- The date pattern `/(\d{4}-\d{2}-\d{2})/` tried at the current position. -/
def tryDateAt : List Char → Option (List Char)
  | a :: b :: c :: d :: '-' :: e :: f :: '-' :: g :: h :: _ =>
    if a.isDigit && b.isDigit && c.isDigit && d.isDigit &&
       e.isDigit && f.isDigit && g.isDigit && h.isDigit
    then some [a, b, c, d, '-', e, f, '-', g, h] else none
  | _ => none

/-- `url.match(/(\d{4}-\d{2}-\d{2})/)`: first match, scanning left to
right. -/
def firstDate : List Char → Option (List Char)
  | [] => none
  | c :: cs =>
    match tryDateAt (c :: cs) with
    | some d => some d
    | none => firstDate cs

/-- `segment.replace(/\.[^/.]+$/, "")`: strip a final extension (a dot
followed by at least one character that is neither a dot nor a slash). -/
def stripExtension (seg : List Char) : List Char :=
  let revSeg := seg.reverse
  let ext := revSeg.takeWhile fun c => c != '.' && c != '/'
  match revSeg.drop ext.length with
  | '.' :: rest => if ext.isEmpty then seg else rest.reverse
  | _ => seg

/-- `pathParts[pathParts.length - 1]` of `pathname.split('/')`. -/
def lastPathSegment (u : Url) : List Char :=
  (splitOnP (· = '/') u.path.data).getLastD []

/-- `word.charAt(0).toUpperCase() + word.slice(1).toLowerCase()`. -/
def titleCaseWord : List Char → List Char
  | [] => []
  | c :: cs => c.toUpper :: cs.map Char.toLower

/-- Humanize (lines 218–222): split on `-`/`_`, drop empty tokens, title
case each, join with single spaces. -/
def humanize (l : List Char) : List Char :=
  ((((splitOnP fun c => c = '-' || c = '_') l).filter fun w => !w.isEmpty).map
    titleCaseWord |>.intersperse [' ']).flatten

/-- The display-name derivation of `part_003` lines 189–231. -/
def deriveName (resp : ApiResponse) (url : String) : String :=
  let extractedDate := firstDate url.data
  let dn0 := jsOr resp.audit_name ""
  let isSlug := dn0.data.contains '_' || (dn0.data.contains '-' && !dn0.data.contains ' ')
  let dn1 :=
    if dn0 = "" || dn0 = "Untitled Audit" || isSlug then
      let base0 := dn0
      let base1 :=
        if base0 = "" || isSlug then
          match parseUrl url with
          | some u => String.mk (stripExtension (lastPathSegment u))
          | none => base0
        else base0
      if base1 ≠ "" then
        let base2 :=
          match extractedDate with
          | some d => replaceFirstOcc d [] base1.data
          | none => base1.data
        String.mk (humanize base2)
      else dn0
    else dn0
  let dn2 := if dn1 = "" then "Untitled Audit" else dn1
  match extractedDate with
  | some d =>
    if containsSub d dn2.data then dn2 else dn2 ++ " (" ++ String.mk d ++ ")"
  | none => dn2

/-- `loadDataset` of `part_003`, instrumented with the number of
corrective-retry activations (the second component).  `fuel` bounds the
recursion depth of the retry; the bound-one theorems show `fuel = 2`
suffices whenever the guard fires. -/
def loadDataset (net : String → FetchResult) (env : Env) :
    Nat → String → Except String (Dataset × Nat)
  | 0, _ => .error "retry depth exhausted"
  | fuel + 1, url =>
    match parseUrl url with
    | none => .error "The provided URL is not valid."
    | some urlObj =>
      match net url with
      | .netErr m => .error m
      | .httpErr status statusText =>
        .error ("Failed to fetch data: " ++ statusText ++ " (" ++ toString status ++ ")")
      | .badJson m => .error m
      | .ok data =>
        let blockers := extractedBlockers net env data urlObj
        if retryCond data urlObj blockers then
          match loadDataset net env fuel (toStringU (retryUrl urlObj)) with
          | .ok (ds, n) => .ok (ds, n + 1)
          | .error e => .error e
        else
          .ok ({ id := env.genId, url := url, name := deriveName data url,
                 blockers := blockers, timestamp := env.nowMs }, 0)

/-- The legacy `loadDataset` of `src/src/services/DataManager.ts`: no
fallback keys, no pagination, no retry; it rejects with the pageSize
message when `blockers` is missing or empty but `totalCount > 0`. -/
def loadDatasetLegacy (net : String → FetchResult) (env : Env)
    (url : String) : Except String Dataset :=
  match parseUrl url with
  | none => .error "The provided URL is not valid."
  | some _ =>
    match net url with
    | .netErr m => .error m
    | .httpErr status statusText =>
      .error ("Failed to fetch data: " ++ statusText ++ " (" ++ toString status ++ ")")
    | .badJson m => .error m
    | .ok data =>
      if (data.blockers.getD []).isEmpty &&
         (match data.pagination with
          | some pg => decide (pg.totalCount > 0)
          | none => false) then
        .error "The API returned no data for this page size. Please try reducing the pageSize in the URL (e.g., to 100)."
      else
        .ok { id := env.genId, url := url,
              name := jsOr data.audit_name "Untitled Audit",
              blockers := data.blockers.getD [], timestamp := env.nowMs }

/-! ## Concrete instances used by witnesses and examples -/

/-- A fixed environment (concrete uuid and clock). -/
def envW : Env :=
  { genId := "uuid-1", nowMs := 1000, nowIso := "2024-01-01T00:00:00.000Z" }

/-- A sample blocker record. -/
def blockerW : Blocker :=
  { id := "b1", created_at := "2024-05-01", messages := ["m"],
    url := "https://site/a", content := "", categories := [], tags := [] }

/-- The name-derivation example URL of the spec. -/
def urlC7 : String := "https://example.com/reports/my_site_audit_2024-05-01.json"

/-- A network serving one blocker at `urlC7`. -/
def netC7 : String → FetchResult := fun s =>
  if s = urlC7 then .ok { blockers := some [blockerW] } else .netErr "offline"

/-- A public-API URL with `pageSize=500`. -/
def urlR : String := "https://equalifyapp.com/public/audits?pageSize=500"

/-- Its parse. -/
def uR : Url :=
  { scheme := "https", host := "equalifyapp.com", path := "/public/audits",
    query := [("pageSize", "500")] }

/-- A response reporting five records but delivering none (the pageSize
bug). -/
def respR : ApiResponse :=
  { pagination := some { totalPages := 1, pageSize := 500, page := 1, totalCount := 5 },
    blockers := some [] }

/-- A network exhibiting the pageSize bug on both the original and the
rewritten URL. -/
def netR : String → FetchResult := fun s =>
  if s = urlR then .ok respR
  else if s = "https://equalifyapp.com/public/audits?pageSize=100&page=1" then .ok respR
  else .netErr "offline"

/-- A response whose `blockers` is empty but whose `auditTable` has two
rows. -/
def respT : ApiResponse :=
  { blockers := some [],
    auditTable := some [{ id := some "x", typeField := some "Img" }, {}],
    results := some [{ id := some "y" }] }

/-- The URL serving `respT`. -/
def urlT : String := "https://other.example/audit.json"

/-- A network serving `respT` at `urlT`. -/
def netT : String → FetchResult := fun s =>
  if s = urlT then .ok respT else .netErr "offline"

/-- The parse of `urlT`. -/
def uT : Url :=
  { scheme := "https", host := "other.example", path := "/audit.json", query := [] }

/-! ## Store lemmas -/

theorem jsSetAdd_nodup {l : List String} (h : l.Nodup) (x : String) :
    (jsSetAdd l x).Nodup := by
  unfold jsSetAdd
  split
  · exact h
  · next hc =>
    have hx : x ∉ l := fun hm => hc (by simpa using hm)
    simp [List.nodup_append, h, hx]

theorem jsSetDelete_nodup {l : List String} (h : l.Nodup) (x : String) :
    (jsSetDelete l x).Nodup :=
  h.filter _

theorem foldl_jsSetAdd_nodup (l : List String) :
    ∀ acc : List String, acc.Nodup → (l.foldl jsSetAdd acc).Nodup := by
  induction l with
  | nil => intro acc h; exact h
  | cons x xs ih => intro acc h; exact ih (jsSetAdd acc x) (jsSetAdd_nodup h x)

theorem jsSetFromArray_nodup (l : List String) : (jsSetFromArray l).Nodup :=
  foldl_jsSetAdd_nodup l [] List.nodup_nil

theorem foldl_bulk_step_nodup (ids : List String) (b : Bool) :
    ∀ acc : List String, acc.Nodup →
    (ids.foldl (fun acc id => if b then jsSetAdd acc id else jsSetDelete acc id) acc).Nodup := by
  induction ids with
  | nil => intro acc h; exact h
  | cons x xs ih =>
    intro acc h
    refine ih _ ?_
    by_cases hb : b = true
    · simp only [hb, if_true]; exact jsSetAdd_nodup h x
    · simp only [Bool.not_eq_true] at hb
      simp only [hb, Bool.false_eq_true, if_false]
      exact jsSetDelete_nodup h x

/-- **C10** — For every starting stored sequence without duplicate ids,
`toggleIgnoreId` returns (and persists) a sequence without duplicate ids;
`bulkIgnoreIds` returns (and persists) a duplicate-free sequence for every
starting sequence, even one with duplicates. -/
theorem store_sequences_nodup :
    (∀ (id : String) (current : List String), current.Nodup →
        (toggleIgnoreId id current).Nodup) ∧
    (∀ (ids : List String) (shouldIgnore : Bool) (current : List String),
        (bulkIgnoreIds ids shouldIgnore current).Nodup) := by
  constructor
  · intro id current h
    unfold toggleIgnoreId
    split
    · exact h.filter _
    · next hc =>
      have hx : id ∉ current := fun hm => hc (by simpa using hm)
      simp [List.nodup_append, h, hx]
  · intro ids b current
    exact foldl_bulk_step_nodup ids b _ (jsSetFromArray_nodup current)

/-- Witness for **C10** at concrete inputs. -/
theorem store_sequences_nodup_witness :
    (toggleIgnoreId "x" ["a", "b"]).Nodup ∧
    (bulkIgnoreIds ["a", "a"] true ["b", "b"]).Nodup :=
  ⟨store_sequences_nodup.1 "x" ["a", "b"] (by decide),
   store_sequences_nodup.2 ["a", "a"] true ["b", "b"]⟩

/-! ## Split/count lemmas for the message parser -/

theorem splitBar_len : ∀ (n : Nat) (l acc : List Char), l.length ≤ n →
    (splitBar acc l).length = countBar l + 1 := by
  intro n
  induction n with
  | zero =>
    intro l acc h
    have : l = [] := List.eq_nil_of_length_eq_zero (Nat.le_zero.mp h)
    subst this
    simp [splitBar, countBar]
  | succ n ih =>
    intro l acc h
    rw [splitBar.eq_def]
    split
    · next rest =>
      simp only [List.length_cons] at h
      have hr : rest.length ≤ n := by omega
      simp [countBar, List.length_cons, ih rest [] hr]
    · next c rest hne =>
      rw [countBar.eq_def]
      split
      · rename_i rest2 heq
        injection heq with h1 h2
        exact (hne rest2 h1 h2).elim
      · rename_i c2 rest2 heq
        injection heq with h1 h2
        subst h2
        simp only [List.length_cons] at h
        exact ih rest (c :: acc) (by omega)
      · rename_i heq
        simp at heq
    · simp [countBar, splitBar]

/-- **C4** — `parseMessages` returns the empty sequence on the empty
string, and otherwise exactly `n + 1` entries for `n` (greedy,
non-overlapping) occurrences of the separator `" | "`, in input order (the
`raw` fields are exactly the split parts, in order). -/
theorem parseMessages_count (s : String) :
    (s = "" → parseMessages s = []) ∧
    (s ≠ "" →
      (parseMessages s).length = countBar s.data + 1 ∧
      (parseMessages s).map ParsedViolation.raw = (splitBar [] s.data).map String.mk) := by
  constructor
  · intro h; simp [parseMessages, h]
  · intro h
    unfold parseMessages
    rw [if_neg h]
    constructor
    · rw [List.length_map, List.enum_length, List.length_map]
      exact splitBar_len s.data.length s.data [] le_rfl
    · rw [List.map_map]
      have hcomp : (ParsedViolation.raw ∘ fun ip : Nat × String => parsePart ip.1 ip.2) =
          Prod.snd := by
        funext ip
        rfl
      rw [hcomp, List.enum_map_snd]

/-- Witness for **C4** at a concrete two-part message. -/
theorem parseMessages_count_witness :
    (parseMessages "a | b").length = countBar "a | b".data + 1 ∧
    (parseMessages "a | b").map ParsedViolation.raw =
      (splitBar [] "a | b".data).map String.mk :=
  (parseMessages_count "a | b").2 (by decide)

/-! ## Scanning lemmas shared by the rule-resolution and URL theorems -/

theorem takeWhile_append_break {α : Type} (p : α → Bool) (xs : List α) (y : α)
    (ys : List α) (hall : ∀ x ∈ xs, p x = true) (hy : p y = false) :
    (xs ++ y :: ys).takeWhile p = xs := by
  induction xs with
  | nil => simp [List.takeWhile_cons, hy]
  | cons a as ih =>
    have ha : p a = true := hall a (List.mem_cons_self a as)
    simp only [List.cons_append, List.takeWhile_cons, ha, if_true]
    rw [ih fun x hx => hall x (List.mem_cons_of_mem a hx)]

theorem dropWhile_append_break {α : Type} (p : α → Bool) (xs : List α) (y : α)
    (ys : List α) (hall : ∀ x ∈ xs, p x = true) (hy : p y = false) :
    (xs ++ y :: ys).dropWhile p = y :: ys := by
  induction xs with
  | nil => simp [List.dropWhile_cons, hy]
  | cons a as ih =>
    have ha : p a = true := hall a (List.mem_cons_self a as)
    simp only [List.cons_append, List.dropWhile_cons, ha, if_true]
    exact ih fun x hx => hall x (List.mem_cons_of_mem a hx)

theorem isPrefixOf_append_self : ∀ pat rest : List Char,
    pat.isPrefixOf (pat ++ rest) = true := by
  intro pat
  induction pat with
  | nil => intro rest; simp [List.isPrefixOf]
  | cons a as ih => intro rest; simp [List.isPrefixOf, ih]

theorem replaceFirstOcc_left (pat repl rest : List Char) :
    replaceFirstOcc pat repl (pat ++ rest) = repl ++ rest := by
  cases hpr : pat ++ rest with
  | nil =>
    have hp : pat = [] := by
      cases pat with
      | nil => rfl
      | cons a as => simp at hpr
    have hr : rest = [] := by
      cases pat <;> simp_all
    subst hp; subst hr
    simp [replaceFirstOcc]
  | cons c cs =>
    simp only [replaceFirstOcc]
    rw [if_pos]
    · rw [← hpr, List.drop_left]
    · rw [← hpr]
      exact isPrefixOf_append_self pat rest

theorem bracketMatch_of_shape (tag rest : List Char) (hne : tag ≠ [])
    (hnb : ']' ∉ tag) :
    bracketMatch ('[' :: (tag ++ ']' :: rest)) = some (tag, '[' :: (tag ++ [']'])) := by
  have htw : (tag ++ ']' :: rest).takeWhile (· ≠ ']') = tag := by
    refine takeWhile_append_break _ tag ']' rest ?_ (by simp)
    intro x hx
    simp only [decide_eq_true_eq, ne_eq]
    exact fun h => hnb (h ▸ hx)
  have hdw : (tag ++ ']' :: rest).dropWhile (· ≠ ']') = ']' :: rest := by
    refine dropWhile_append_break _ tag ']' rest ?_ (by simp)
    intro x hx
    simp only [decide_eq_true_eq, ne_eq]
    exact fun h => hnb (h ▸ hx)
  unfold bracketMatch
  simp only [htw, hdw]
  rw [if_neg (by simpa using hne), if_neg (by simp)]

/-- **C6** — Rule-tag resolution priority of `parseMessages`: (1) a
leading bracketed tag becomes the rule verbatim and is removed from the
(trimmed) description text; (2) otherwise the friendly title of the first
dictionary key contained in the text becomes the rule and the text is
unchanged (the key is not removed); (3) otherwise, when the first colon
sits at an index strictly between `0` and `50` and the prefix before it
has no line break and is longer than `3` characters, the trimmed prefix is
the rule; (4) otherwise the rule is the literal `"General Violation"`. -/
theorem resolveRule_priority (l : List Char) :
    (∀ tag rest, l = '[' :: (tag ++ ']' :: rest) → tag ≠ [] → ']' ∉ tag →
        resolveRule l = (String.mk tag, trimL rest)) ∧
    (∀ title, bracketMatch l = none → firstFriendly l = some title →
        resolveRule l = (title, l)) ∧
    (bracketMatch l = none → firstFriendly l = none →
        0 < jsIndexOf l ':' → jsIndexOf l ':' < 50 →
        (l.take (jsIndexOf l ':').toNat).contains '\n' = false →
        3 < (l.take (jsIndexOf l ':').toNat).length →
        resolveRule l = (String.mk (trimL (l.take (jsIndexOf l ':').toNat)), l)) ∧
    (bracketMatch l = none → firstFriendly l = none →
        ¬(0 < jsIndexOf l ':' ∧ jsIndexOf l ':' < 50 ∧
          (l.take (jsIndexOf l ':').toNat).contains '\n' = false ∧
          3 < (l.take (jsIndexOf l ':').toNat).length) →
        resolveRule l = ("General Violation", l)) := by
  refine ⟨?_, ?_, ?_, ?_⟩
  · intro tag rest hl hne hnb
    subst hl
    unfold resolveRule
    rw [bracketMatch_of_shape tag rest hne hnb]
    show (String.mk tag,
      trimL (replaceFirstOcc ('[' :: (tag ++ [']'])) [] ('[' :: (tag ++ ']' :: rest)))) = _
    rw [show ('[' :: (tag ++ ']' :: rest)) = ('[' :: (tag ++ [']'])) ++ rest by simp,
      replaceFirstOcc_left]
    simp
  · intro title hbm hff
    unfold resolveRule
    rw [hbm, hff]
  · intro hbm hff hpos hlt hnl hlen
    unfold resolveRule
    rw [hbm, hff]
    rw [if_pos ⟨hpos, hlt⟩, if_pos ⟨hnl, hlen⟩]
  · intro hbm hff hneg
    unfold resolveRule
    rw [hbm, hff]
    by_cases h1 : 0 < jsIndexOf l ':' ∧ jsIndexOf l ':' < 50
    · rw [if_pos h1, if_neg]
      intro h2
      exact hneg ⟨h1.1, h1.2, h2.1, h2.2⟩
    · rw [if_neg h1]

/-- Witness for **C6**: one concrete instance of each priority clause. -/
theorem resolveRule_priority_witness :
    resolveRule "[foo] bar".data = ("foo", "bar".data) ∧
    resolveRule "see Link Name Rule here".data =
      ("Missing Link Text", "see Link Name Rule here".data) ∧
    resolveRule "My Rule: details here".data =
      ("My Rule", "My Rule: details here".data) ∧
    resolveRule "hi there".data = ("General Violation", "hi there".data) := by
  refine ⟨?_, ?_, ?_, ?_⟩
  · exact ((resolveRule_priority "[foo] bar".data).1 "foo".data " bar".data
      (by decide) (by decide) (by decide)).trans (by decide)
  · exact (resolveRule_priority "see Link Name Rule here".data).2.1
      "Missing Link Text" (by decide) (by decide)
  · exact ((resolveRule_priority "My Rule: details here".data).2.2.1
      (by decide) (by decide) (by decide) (by decide) (by decide) (by decide)).trans
      (by decide)
  · exact (resolveRule_priority "hi there".data).2.2.2 (by decide) (by decide)
      (by decide)

/-! ## URL parse/serialise lemmas -/

theorem String_data_ne {s : String} (h : s ≠ "") : s.data ≠ [] := by
  cases s with
  | mk d =>
    intro hd
    apply h
    rw [show d = [] from hd]

theorem takeWhile_all {α : Type} (p : α → Bool) (l : List α) (h : ∀ x ∈ l, p x = true) :
    l.takeWhile p = l := by
  induction l with
  | nil => rfl
  | cons a as ih =>
    simp only [List.takeWhile_cons, h a (List.mem_cons_self a as), if_true]
    rw [ih fun x hx => h x (List.mem_cons_of_mem a hx)]

theorem dropWhile_all {α : Type} (p : α → Bool) (l : List α) (h : ∀ x ∈ l, p x = true) :
    l.dropWhile p = [] := by
  induction l with
  | nil => rfl
  | cons a as ih =>
    simp only [List.dropWhile_cons, h a (List.mem_cons_self a as), if_true]
    exact ih fun x hx => h x (List.mem_cons_of_mem a hx)

theorem splitOnP_ne_nil (p : Char → Bool) (l : List Char) : splitOnP p l ≠ [] := by
  cases l with
  | nil => simp [splitOnP]
  | cons a as =>
    rw [splitOnP]
    rcases hsp : splitOnP p as with _ | ⟨h, t⟩
    · simp
    · show (if p a = true then [] :: h :: t else (a :: h) :: t) ≠ []
      split <;> simp

theorem splitOnP_no_sep (p : Char → Bool) (l : List Char) (h : ∀ c ∈ l, p c = false) :
    splitOnP p l = [l] := by
  induction l with
  | nil => rfl
  | cons a as ih =>
    rw [splitOnP, ih fun x hx => h x (List.mem_cons_of_mem a hx)]
    simp [h a (List.mem_cons_self a as)]

theorem splitOnP_append_sep (p : Char → Bool) (s : List Char) (y : Char) (tail : List Char)
    (hs : ∀ c ∈ s, p c = false) (hy : p y = true) :
    splitOnP p (s ++ y :: tail) = s :: splitOnP p tail := by
  induction s with
  | nil =>
    rw [List.nil_append, splitOnP]
    rcases hsp : splitOnP p tail with _ | ⟨h, t⟩
    · exact absurd hsp (splitOnP_ne_nil p tail)
    · show (if p y = true then [] :: h :: t else (y :: h) :: t) = [] :: h :: t
      rw [if_pos hy]
  | cons a as ih =>
    rw [List.cons_append, splitOnP, ih fun x hx => hs x (List.mem_cons_of_mem a hx)]
    simp [hs a (List.mem_cons_self a as)]

theorem splitOnP_sep_free (p : Char → Bool) (l : List Char) :
    ∀ seg ∈ splitOnP p l, ∀ c ∈ seg, p c = false := by
  induction l with
  | nil =>
    intro seg hseg c hc
    simp [splitOnP] at hseg
    subst hseg
    simp at hc
  | cons a as ih =>
    intro seg hseg c hc
    rw [splitOnP] at hseg
    rcases hsp : splitOnP p as with _ | ⟨h, t⟩
    · exact absurd hsp (splitOnP_ne_nil p as)
    · rw [hsp] at hseg
      have hseg2 : seg ∈ (if p a = true then [] :: h :: t else (a :: h) :: t) := hseg
      by_cases hpa : p a = true
      · rw [if_pos hpa] at hseg2
        rcases List.mem_cons.mp hseg2 with hseg2 | hseg2
        · subst hseg2; simp at hc
        · exact ih seg (hsp ▸ hseg2) c hc
      · rw [if_neg hpa] at hseg2
        rcases List.mem_cons.mp hseg2 with hseg2 | hseg2
        · subst hseg2
          rcases List.mem_cons.mp hc with hc | hc
          · subst hc; simpa using hpa
          · exact ih h (hsp ▸ List.mem_cons_self h t) c hc
        · exact ih seg (hsp ▸ List.mem_cons_of_mem h hseg2) c hc

theorem parseQueryPair_left (k v : String) (hk : '=' ∉ k.data) :
    parseQueryPair (k.data ++ '=' :: v.data) = (k, v) := by
  have hall : ∀ x ∈ k.data, (decide (x ≠ '=')) = true := by
    intro x hx
    simp only [decide_eq_true_eq, ne_eq]
    exact fun h => hk (h ▸ hx)
  unfold parseQueryPair
  rw [dropWhile_append_break _ k.data '=' v.data hall (by simp)]
  rw [takeWhile_append_break _ k.data '=' v.data hall (by simp)]
  rfl

theorem queryToString_cons_cons (x y : String × String) (rest : List (String × String)) :
    queryToString (x :: y :: rest) =
      (x.1.data ++ '=' :: x.2.data) ++ '&' :: queryToString (y :: rest) := by
  unfold queryToString
  rw [List.map_cons, List.map_cons, List.intersperse_cons_cons]
  simp [List.flatten]

theorem parseQuery_roundtrip : ∀ q : List (String × String), wfQuery q → q ≠ [] →
    parseQuery (queryToString q) = q := by
  intro q
  induction q with
  | nil => intro _ h; exact absurd rfl h
  | cons x rest ih =>
    intro hwf _
    have hx := hwf x (List.mem_cons_self x rest)
    have hsegall : ∀ c ∈ x.1.data ++ '=' :: x.2.data, (decide (c = '&')) = false := by
      intro c hc
      simp only [decide_eq_false_iff_not]
      rcases List.mem_append.mp hc with hc | hc
      · exact fun h => hx.1.2 (h ▸ hc)
      · rcases List.mem_cons.mp hc with hc | hc
        · subst hc; decide
        · exact fun h => hx.2 (h ▸ hc)
    have hsegne : x.1.data ++ '=' :: x.2.data ≠ [] := by simp
    cases rest with
    | nil =>
      unfold parseQuery queryToString
      simp only [List.map_cons, List.map_nil, List.intersperse_singleton, List.flatten]
      rw [List.append_nil]
      rw [splitOnP_no_sep _ _ hsegall]
      simp only [List.filter_cons, List.filter_nil]
      rw [if_pos (by simp)]
      simp [parseQueryPair_left x.1 x.2 hx.1.1]
    | cons y rest2 =>
      have hrec := ih (fun kv hkv => hwf kv (List.mem_cons_of_mem x hkv)) (by simp)
      rw [queryToString_cons_cons]
      unfold parseQuery
      rw [splitOnP_append_sep _ _ '&' _ hsegall (by decide)]
      simp only [List.filter_cons]
      rw [if_pos (by simp)]
      rw [List.map_cons]
      rw [parseQueryPair_left x.1 x.2 hx.1.1]
      unfold parseQuery at hrec
      rw [hrec]

theorem parseUrl_toStringU (u : Url) (hwf : wfUrl u) :
    parseUrl (toStringU u) = some u := by
  obtain ⟨hsch, hhostne, hhostsl, hhostq, hpathhead, hpathq, hq⟩ := hwf
  obtain ⟨ptail, hpath⟩ : ∃ p, u.path.data = '/' :: p := by
    cases hp : u.path.data with
    | nil => rw [hp] at hpathhead; simp at hpathhead
    | cons c cs =>
      rw [hp] at hpathhead
      simp at hpathhead
      exact ⟨cs, by rw [hpathhead]⟩
  have hallsch : ∀ x ∈ u.scheme.data, (decide (x ≠ ':')) = true := by
    intro x hx
    simp only [decide_eq_true_eq, ne_eq]
    exact fun h => hsch (h ▸ hx)
  have hallhost : ∀ x ∈ u.host.data, (x != '/' && x != '?') = true := by
    intro x hx
    simp only [Bool.and_eq_true, bne_iff_ne, ne_eq]
    exact ⟨fun h => hhostsl (h ▸ hx), fun h => hhostq (h ▸ hx)⟩
  have hallptail : ∀ x ∈ ptail, (decide (x ≠ '?')) = true := by
    intro x hx
    simp only [decide_eq_true_eq, ne_eq]
    exact fun h => hpathq (by rw [hpath]; exact List.mem_cons_of_mem _ (h ▸ hx))
  have hhostdata : u.host.data ≠ [] := String_data_ne hhostne
  have hhostemp : u.host.data.isEmpty = false := by
    cases hhd : u.host.data with
    | nil => exact absurd hhd hhostdata
    | cons a as => rfl
  by_cases hqe : u.query = []
  · have hL : (toStringU u).data =
        u.scheme.data ++ ':' :: ('/' :: '/' :: (u.host.data ++ ('/' :: ptail))) := by
      simp [toStringU, hqe, hpath]
    rw [parseUrl, hL]
    rw [takeWhile_append_break _ u.scheme.data ':' _ hallsch (by simp)]
    rw [dropWhile_append_break _ u.scheme.data ':' _ hallsch (by simp)]
    simp only [takeWhile_append_break _ u.host.data '/' ptail hallhost (by simp),
      dropWhile_append_break _ u.host.data '/' ptail hallhost (by simp),
      takeWhile_all _ ptail hallptail, dropWhile_all _ ptail hallptail, hhostemp]
    rw [← hpath, ← hqe]
    rfl
  · have hqemp : u.query.isEmpty = false := by
      cases hq2 : u.query with
      | nil => exact absurd hq2 hqe
      | cons a as => rfl
    have hL : (toStringU u).data =
        u.scheme.data ++ ':' :: ('/' :: '/' ::
          (u.host.data ++ ('/' :: (ptail ++ '?' :: queryToString u.query)))) := by
      simp [toStringU, hqemp, hpath]
    rw [parseUrl, hL]
    rw [takeWhile_append_break _ u.scheme.data ':' _ hallsch (by simp)]
    rw [dropWhile_append_break _ u.scheme.data ':' _ hallsch (by simp)]
    simp only [takeWhile_append_break _ u.host.data '/' _ hallhost (by simp),
      dropWhile_append_break _ u.host.data '/' _ hallhost (by simp),
      takeWhile_append_break _ ptail '?' _ hallptail (by simp),
      dropWhile_append_break _ ptail '?' _ hallptail (by simp), hhostemp]
    rw [parseQuery_roundtrip u.query hq hqe]
    rw [← hpath]
    rfl

theorem dropWhile_cons_head {α : Type} (p : α → Bool) :
    ∀ (l : List α) (c : α) (cs : List α), l.dropWhile p = c :: cs → p c = false := by
  intro l
  induction l with
  | nil => intro c cs h; simp at h
  | cons a as ih =>
    intro c cs h
    rw [List.dropWhile_cons] at h
    by_cases hpa : p a = true
    · rw [if_pos hpa] at h
      exact ih c cs h
    · rw [if_neg hpa] at h
      injection h with h1 h2
      subst h1
      simpa using hpa

theorem parseQuery_wf (qs : List Char) : wfQuery (parseQuery qs) := by
  intro kv hkv
  unfold parseQuery at hkv
  rcases List.mem_map.mp hkv with ⟨seg, hseg, hkveq⟩
  have hsegsp := List.mem_filter.mp hseg
  have hsegfree : ∀ c ∈ seg, c ≠ '&' := by
    intro c hc
    have := splitOnP_sep_free _ qs seg hsegsp.1 c hc
    simpa using this
  have hkey1 : '=' ∉ seg.takeWhile (· ≠ '=') := by
    intro hx
    have := List.mem_takeWhile_imp hx
    simp at this
  have hkey2 : '&' ∉ seg.takeWhile (· ≠ '=') := by
    intro hx
    exact hsegfree '&' ((List.takeWhile_sublist _).subset hx) rfl
  subst hkveq
  unfold parseQueryPair
  rcases hdw : seg.dropWhile (· ≠ '=') with _ | ⟨c0, v0⟩
  · exact ⟨⟨hkey1, hkey2⟩, by simp⟩
  · by_cases hc0 : c0 = '='
    · subst hc0
      refine ⟨⟨hkey1, hkey2⟩, ?_⟩
      intro hx
      have hmem : '&' ∈ seg.dropWhile (· ≠ '=') := by
        rw [hdw]
        exact List.mem_cons_of_mem _ hx
      exact hsegfree '&' ((List.dropWhile_sublist _).subset hmem) rfl
    · have := dropWhile_cons_head _ seg c0 v0 hdw
      simp at this
      exact absurd this hc0

theorem mk_ne_empty_of_ne_nil {l : List Char} (h : l ≠ []) : String.mk l ≠ "" := by
  intro he
  apply h
  have := congrArg String.data he
  simpa using this

theorem parseUrl_wf (s : String) (u : Url) (h : parseUrl s = some u) : wfUrl u := by
  unfold parseUrl at h
  dsimp only at h
  have hsch : ':' ∉ s.data.takeWhile (· ≠ ':') := by
    intro hx
    have := List.mem_takeWhile_imp hx
    simp at this
  split at h
  · next rest heq =>
    set hostl := rest.takeWhile (fun c => c != '/' && c != '?') with hhost
    have hh1 : '/' ∉ hostl := by
      intro hx
      have := List.mem_takeWhile_imp hx
      simp at this
    have hh2 : '?' ∉ hostl := by
      intro hx
      have := List.mem_takeWhile_imp hx
      simp at this
    split at h
    · exact absurd h (by simp)
    · next hemp =>
      have hne : hostl ≠ [] := by
        intro hn
        exact hemp (by simp [hn])
      split at h
      · next more heq2 =>
        split at h
        · next qs heq3 =>
          injection h with h2
          subst h2
          refine ⟨hsch, mk_ne_empty_of_ne_nil hne, hh1, hh2, rfl, ?_, parseQuery_wf qs⟩
          intro hx
          rcases List.mem_cons.mp hx with hx | hx
          · simp at hx
          · have := List.mem_takeWhile_imp hx
            simp at this
        · injection h with h2
          subst h2
          refine ⟨hsch, mk_ne_empty_of_ne_nil hne, hh1, hh2, rfl, ?_, by intro kv hkv; simp at hkv⟩
          intro hx
          rcases List.mem_cons.mp hx with hx | hx
          · simp at hx
          · have := List.mem_takeWhile_imp hx
            simp at this
      · next qs heq2 =>
        injection h with h2
        subst h2
        exact ⟨hsch, mk_ne_empty_of_ne_nil hne, hh1, hh2, rfl,
          by show '?' ∉ ("/" : String).data; decide, parseQuery_wf qs⟩
      · next heq2 =>
        injection h with h2
        subst h2
        exact ⟨hsch, mk_ne_empty_of_ne_nil hne, hh1, hh2, rfl,
          by show '?' ∉ ("/" : String).data; decide, by intro kv hkv; simp at hkv⟩
  · exact absurd h (by simp)

theorem getParam_setParam_same (q : List (String × String)) (k v : String) :
    getParam (setParam q k v) k = some v := by
  induction q with
  | nil => simp [setParam, getParam]
  | cons kv rest ih =>
    obtain ⟨k0, v0⟩ := kv
    rw [setParam]
    by_cases hk : k0 = k
    · rw [if_pos hk]
      simp [getParam]
    · rw [if_neg hk]
      unfold getParam at ih ⊢
      rw [List.find?_cons_of_neg _ (by simpa using hk)]
      exact ih

theorem find?_filter_ne (rest : List (String × String)) (k k2 : String) (hkk : k2 ≠ k) :
    (rest.filter fun kv => kv.1 ≠ k).find? (fun kv => kv.1 = k2) =
      rest.find? (fun kv => kv.1 = k2) := by
  induction rest with
  | nil => rfl
  | cons kv rest ih =>
    obtain ⟨k0, v0⟩ := kv
    by_cases hk0 : k0 = k
    · subst hk0
      rw [List.filter_cons_of_neg (by simp)]
      rw [List.find?_cons_of_neg _ (by simp only [decide_eq_true_eq]; exact fun h => hkk h.symm)]
      exact ih
    · rw [List.filter_cons_of_pos (by simpa using hk0)]
      by_cases hk2 : k0 = k2
      · subst hk2
        rw [List.find?_cons_of_pos _ (by simp), List.find?_cons_of_pos _ (by simp)]
      · rw [List.find?_cons_of_neg _ (by simpa using hk2),
          List.find?_cons_of_neg _ (by simpa using hk2)]
        exact ih

theorem getParam_setParam_other (q : List (String × String)) (k v k2 : String)
    (hkk : k2 ≠ k) : getParam (setParam q k v) k2 = getParam q k2 := by
  induction q with
  | nil =>
    unfold setParam getParam
    rw [List.find?_cons_of_neg _ (by simp only [decide_eq_true_eq]; exact fun h => hkk h.symm)]
  | cons kv rest ih =>
    obtain ⟨k0, v0⟩ := kv
    rw [setParam]
    by_cases hk : k0 = k
    · subst hk
      rw [if_pos rfl]
      unfold getParam
      rw [List.find?_cons_of_neg _ (by simp only [decide_eq_true_eq]; exact fun h => hkk h.symm),
        List.find?_cons_of_neg _ (by simp only [decide_eq_true_eq]; exact fun h => hkk h.symm)]
      rw [find?_filter_ne rest k0 k2 hkk]
    · rw [if_neg hk]
      unfold getParam at ih ⊢
      by_cases hk2 : k0 = k2
      · subst hk2
        rw [List.find?_cons_of_pos _ (by simp), List.find?_cons_of_pos _ (by simp)]
      · rw [List.find?_cons_of_neg _ (by simpa using hk2),
          List.find?_cons_of_neg _ (by simpa using hk2)]
        exact ih

/-! ## Retry-URL lemmas and the loader theorems -/

theorem setParam_wfQuery (q : List (String × String)) (k v : String)
    (hq : wfQuery q) (hk1 : '=' ∉ k.data) (hk2 : '&' ∉ k.data) (hv : '&' ∉ v.data) :
    wfQuery (setParam q k v) := by
  induction q with
  | nil =>
    intro kv hkv
    simp only [setParam, List.mem_singleton] at hkv
    subst hkv
    exact ⟨⟨hk1, hk2⟩, hv⟩
  | cons kv0 rest ih =>
    obtain ⟨k0, v0⟩ := kv0
    intro kv hkv
    rw [setParam] at hkv
    by_cases h0 : k0 = k
    · rw [if_pos h0] at hkv
      rcases List.mem_cons.mp hkv with h | h
      · subst h
        exact ⟨⟨hk1, hk2⟩, hv⟩
      · exact hq kv (List.mem_cons_of_mem _ ((List.filter_sublist _).subset h))
    · rw [if_neg h0] at hkv
      rcases List.mem_cons.mp hkv with h | h
      · subst h
        exact hq _ (List.mem_cons_self _ _)
      · exact ih (fun kv2 hkv2 => hq kv2 (List.mem_cons_of_mem _ hkv2)) kv h

theorem retryUrl_wf (u : Url) (h : wfUrl u) : wfUrl (retryUrl u) := by
  obtain ⟨h1, h2, h3, h4, h5, h6, h7⟩ := h
  refine ⟨h1, h2, h3, h4, h5, h6, ?_⟩
  exact setParam_wfQuery _ _ _
    (setParam_wfQuery _ _ _ h7 (by decide) (by decide) (by decide))
    (by decide) (by decide) (by decide)

theorem retryUrl_pageSize (u : Url) :
    getParam (retryUrl u).query "pageSize" = some "100" := by
  show getParam (setParam (setParam u.query "pageSize" "100") "page" "1") "pageSize" = _
  rw [getParam_setParam_other _ _ _ _ (by decide)]
  exact getParam_setParam_same _ _ _

theorem retryUrl_page (u : Url) :
    getParam (retryUrl u).query "page" = some "1" :=
  getParam_setParam_same _ _ _

theorem retryCond_of_pageSize100 (resp : ApiResponse) (u2 : Url)
    (h : getParam u2.query "pageSize" = some "100") (bl : List Blocker) :
    retryCond resp u2 bl = false := by
  simp [retryCond, h]

theorem loadDataset_no_retry (net : String → FetchResult) (env : Env) (f : Nat)
    (url2 : String) (u2 : Url) (resp : ApiResponse)
    (hparse : parseUrl url2 = some u2)
    (hnet : net url2 = .ok resp)
    (hrc : retryCond resp u2 (extractedBlockers net env resp u2) = false) :
    loadDataset net env (f + 1) url2 =
      .ok ({ id := env.genId, url := url2, name := deriveName resp url2,
             blockers := extractedBlockers net env resp u2,
             timestamp := env.nowMs }, 0) := by
  rw [loadDataset, hparse]
  dsimp only
  rw [hnet]
  dsimp only
  rw [hrc]
  simp

/-- **C2** — Under the retry guard (first response has `totalCount > 0`,
the full extraction pipeline is empty, the URL is the known public API and
its `pageSize` parameter is not `"100"`), `loadDataset` resolves to
exactly one corrective retry at the URL rewritten with `pageSize=100` and
`page=1`, and the retried load can never take the retry branch again
(every success of the inner load carries retry count `0`, so the recursion
is bounded to depth one). -/
theorem loadDataset_single_retry (net : String → FetchResult) (env : Env) (url : String) (u : Url)
    (data : ApiResponse) (pg : Pagination) (fuel : Nat)
    (hparse : parseUrl url = some u)
    (hnet : net url = .ok data)
    (hpg : data.pagination = some pg)
    (hcount : 0 < pg.totalCount)
    (hempty : extractedBlockers net env data u = [])
    (hapi : isPublicApi u = true)
    (hps : getParam u.query "pageSize" ≠ some "100") :
    loadDataset net env (fuel + 2) url =
      (match loadDataset net env (fuel + 1) (toStringU (retryUrl u)) with
       | .ok (ds, n) => .ok (ds, n + 1)
       | .error e => .error e) ∧
    getParam (retryUrl u).query "pageSize" = some "100" ∧
    getParam (retryUrl u).query "page" = some "1" ∧
    (∀ ds m, loadDataset net env (fuel + 1) (toStringU (retryUrl u)) = .ok (ds, m) →
      m = 0) := by
  have hbeq : (getParam u.query "pageSize" == some "100") = false := by
    rw [beq_eq_false_iff_ne]
    exact hps
  have hrc : retryCond data u [] = true := by
    simp [retryCond, hpg, hcount, hbeq, hapi]
  refine ⟨?_, retryUrl_pageSize u, retryUrl_page u, ?_⟩
  · show loadDataset net env ((fuel + 1) + 1) url = _
    rw [loadDataset]
    rw [hparse]
    simp only [hnet, hempty, hrc, if_true]
  · intro ds m hok
    have hwf2 : wfUrl (retryUrl u) := retryUrl_wf u (parseUrl_wf url u hparse)
    have hparse2 : parseUrl (toStringU (retryUrl u)) = some (retryUrl u) :=
      parseUrl_toStringU _ hwf2
    rw [loadDataset, hparse2] at hok
    dsimp only at hok
    rcases hnet2 : net (toStringU (retryUrl u)) with m2 | ⟨st, tx⟩ | m3 | data2
    · rw [hnet2] at hok
      simp at hok
    · rw [hnet2] at hok
      simp at hok
    · rw [hnet2] at hok
      simp at hok
    · rw [hnet2] at hok
      have hrc2 : retryCond data2 (retryUrl u)
          (extractedBlockers net env data2 (retryUrl u)) = false := by
        unfold retryCond
        rw [retryUrl_pageSize]
        simp
      dsimp only at hok
      rw [hrc2] at hok
      simp only [if_false, Bool.false_eq_true, Except.ok.injEq, Prod.mk.injEq] at hok
      exact hok.2.symm

/-- Witness for **C2** at the concrete pageSize-bug scenario. -/
theorem loadDataset_single_retry_witness :
    loadDataset netR envW 2 urlR =
      (match loadDataset netR envW 1 (toStringU (retryUrl uR)) with
       | .ok (ds, n) => .ok (ds, n + 1)
       | .error e => .error e) ∧
    getParam (retryUrl uR).query "pageSize" = some "100" ∧
    getParam (retryUrl uR).query "page" = some "1" := by
  have h := loadDataset_single_retry netR envW urlR uR respR
    { totalPages := 1, pageSize := 500, page := 1, totalCount := 5 } 0
    (by decide) rfl rfl (by decide) rfl rfl (by decide)
  exact ⟨h.1, h.2.1, h.2.2.1⟩

/-- **C9** — When the retry triggers and the retried load succeeds, the
returned Dataset's `url` field is the rewritten retry URL (with
`pageSize=100` and `page=1`), which differs from the caller's original URL
string. -/
theorem loadDataset_retry_result_url (net : String → FetchResult) (env : Env) (url : String) (u : Url)
    (data : ApiResponse) (pg : Pagination) (fuel : Nat) (ds : Dataset) (m : Nat)
    (hparse : parseUrl url = some u)
    (hnet : net url = .ok data)
    (hpg : data.pagination = some pg)
    (hcount : 0 < pg.totalCount)
    (hempty : extractedBlockers net env data u = [])
    (hapi : isPublicApi u = true)
    (hps : getParam u.query "pageSize" ≠ some "100")
    (hok : loadDataset net env (fuel + 1) (toStringU (retryUrl u)) = .ok (ds, m)) :
    loadDataset net env (fuel + 2) url = .ok (ds, m + 1) ∧
    ds.url = toStringU (retryUrl u) ∧
    toStringU (retryUrl u) ≠ url := by
  have h := loadDataset_single_retry net env url u data pg fuel hparse hnet hpg hcount
    hempty hapi hps
  have hparse2 : parseUrl (toStringU (retryUrl u)) = some (retryUrl u) :=
    parseUrl_toStringU _ (retryUrl_wf u (parseUrl_wf url u hparse))
  refine ⟨?_, ?_, ?_⟩
  · rw [h.1, hok]
  · rcases hnet2 : net (toStringU (retryUrl u)) with m2 | ⟨st, tx⟩ | m3 | data2
    · rw [loadDataset, hparse2] at hok
      dsimp only at hok
      rw [hnet2] at hok
      simp at hok
    · rw [loadDataset, hparse2] at hok
      dsimp only at hok
      rw [hnet2] at hok
      simp at hok
    · rw [loadDataset, hparse2] at hok
      dsimp only at hok
      rw [hnet2] at hok
      simp at hok
    · have hload := loadDataset_no_retry net env fuel (toStringU (retryUrl u))
        (retryUrl u) data2 hparse2 hnet2
        (retryCond_of_pageSize100 data2 (retryUrl u) (retryUrl_pageSize u) _)
      rw [hok] at hload
      simp only [Except.ok.injEq, Prod.mk.injEq] at hload
      rw [hload.1]
  · intro heq
    have h2 : parseUrl url = some (retryUrl u) := by
      rw [← heq]
      exact hparse2
    rw [hparse] at h2
    have h3 : u = retryUrl u := by
      injection h2
    apply hps
    rw [show getParam u.query "pageSize" = getParam (retryUrl u).query "pageSize" from by rw [← h3]]
    exact retryUrl_pageSize u

/-- Witness for **C9** at the concrete pageSize-bug scenario. -/
theorem loadDataset_retry_result_url_witness :
    loadDataset netR envW 2 urlR =
      .ok ({ id := "uuid-1", url := toStringU (retryUrl uR), name := "Audits",
             blockers := [], timestamp := 1000 }, 0 + 1) ∧
    ({ id := "uuid-1", url := toStringU (retryUrl uR), name := "Audits",
       blockers := [], timestamp := 1000 } : Dataset).url = toStringU (retryUrl uR) ∧
    toStringU (retryUrl uR) ≠ urlR :=
  loadDataset_retry_result_url netR envW urlR uR respR
    { totalPages := 1, pageSize := 500, page := 1, totalCount := 5 } 0
    { id := "uuid-1", url := toStringU (retryUrl uR), name := "Audits",
      blockers := [], timestamp := 1000 } 0
    (by decide) rfl rfl (by decide) rfl rfl (by decide) rfl

/-- **C3 (counterexample)** — In the pageSize-bug scenario where the
retry also extracts nothing, `loadDataset` *resolves* to a Dataset with an
empty record list (retry count `1`); it does not reject with the
pageSize-adjustment message. -/
theorem loadDataset_empty_after_retry_counterexample :
    loadDataset netR envW 2 urlR =
      .ok ({ id := "uuid-1",
             url := "https://equalifyapp.com/public/audits?pageSize=100&page=1",
             name := "Audits", blockers := [], timestamp := 1000 }, 1) := by
  rfl

/-- **C3 (amended)** — When `totalCount > 0` but nothing is extracted even
after the pageSize-100 corrective retry, the current loader resolves
successfully to a Dataset with an empty record list instead of rejecting;
the rejection with the descriptive pageSize-adjustment message exists only
in the legacy `src/services/DataManager.ts` variant, which performs no
retry and rejects as soon as `totalCount > 0` with no `blockers`. -/
theorem loadDataset_empty_after_retry_resolves (net : String → FetchResult) (env : Env) (url : String) (u : Url)
    (data data2 : ApiResponse) (pg : Pagination) (fuel : Nat)
    (hparse : parseUrl url = some u)
    (hnet : net url = .ok data)
    (hpg : data.pagination = some pg)
    (hcount : 0 < pg.totalCount)
    (hempty : extractedBlockers net env data u = [])
    (hapi : isPublicApi u = true)
    (hps : getParam u.query "pageSize" ≠ some "100")
    (hnet2 : net (toStringU (retryUrl u)) = .ok data2)
    (hempty2 : extractedBlockers net env data2 (retryUrl u) = []) :
    loadDataset net env (fuel + 2) url =
      .ok ({ id := env.genId, url := toStringU (retryUrl u),
             name := deriveName data2 (toStringU (retryUrl u)),
             blockers := [], timestamp := env.nowMs }, 1) ∧
    (∀ (url2 : String) (u2 : Url) (resp : ApiResponse) (pg2 : Pagination),
      parseUrl url2 = some u2 → net url2 = .ok resp →
      (resp.blockers.getD []).isEmpty = true → resp.pagination = some pg2 →
      0 < pg2.totalCount →
      loadDatasetLegacy net env url2 =
        .error "The API returned no data for this page size. Please try reducing the pageSize in the URL (e.g., to 100).") := by
  constructor
  · have h := loadDataset_single_retry net env url u data pg fuel hparse hnet hpg hcount
      hempty hapi hps
    have hparse2 : parseUrl (toStringU (retryUrl u)) = some (retryUrl u) :=
      parseUrl_toStringU _ (retryUrl_wf u (parseUrl_wf url u hparse))
    have hinner := loadDataset_no_retry net env fuel (toStringU (retryUrl u))
      (retryUrl u) data2 hparse2 hnet2
      (retryCond_of_pageSize100 data2 (retryUrl u) (retryUrl_pageSize u) _)
    rw [hempty2] at hinner
    rw [h.1, hinner]
  · intro url2 u2 resp pg2 hparse3 hnet3 hbl hpg2 hcount2
    unfold loadDatasetLegacy
    rw [hparse3]
    dsimp only
    rw [hnet3]
    dsimp only
    rw [if_pos]
    rw [hbl, hpg2]
    simp [hcount2]

/-- Witness for **C3 (amended)** at the concrete pageSize-bug scenario. -/
theorem loadDataset_empty_after_retry_resolves_witness :
    loadDataset netR envW 2 urlR =
      .ok ({ id := envW.genId, url := toStringU (retryUrl uR),
             name := deriveName respR (toStringU (retryUrl uR)),
             blockers := [], timestamp := envW.nowMs }, 1) ∧
    loadDatasetLegacy netR envW urlR =
      .error "The API returned no data for this page size. Please try reducing the pageSize in the URL (e.g., to 100)." := by
  have h := loadDataset_empty_after_retry_resolves netR envW urlR uR respR respR
    { totalPages := 1, pageSize := 500, page := 1, totalCount := 5 } 0
    (by decide) rfl rfl (by decide) rfl rfl (by decide) rfl rfl
  exact ⟨h.1, h.2 urlR uR respR
    { totalPages := 1, pageSize := 500, page := 1, totalCount := 5 }
    (by decide) rfl (by decide) rfl (by decide)⟩

/-- **C5** — With empty (or absent) `blockers`, a nonempty `auditTable`,
and neither auto-pagination nor the retry triggering, `loadDataset`
returns a Dataset whose records are exactly `auditTable` mapped through
`extractFromList` (so the record count equals `auditTable`'s length),
regardless of what `audit_table`, `results`, `data`, `items` or `records`
contain — `auditTable` has priority. -/
theorem loadDataset_auditTable_fallback (net : String → FetchResult) (env : Env) (url : String) (u : Url)
    (data : ApiResponse) (l : List RawItem) (fuel : Nat)
    (hparse : parseUrl url = some u)
    (hnet : net url = .ok data)
    (hblock : data.blockers.getD [] = [])
    (haudit : data.auditTable = some l)
    (hne : l ≠ [])
    (hnopag : autoPagCond data u = false) :
    loadDataset net env (fuel + 1) url =
      .ok ({ id := env.genId, url := url, name := deriveName data url,
             blockers := extractFromList env data.scan_date l,
             timestamp := env.nowMs }, 0) ∧
    (extractFromList env data.scan_date l).length = l.length := by
  have hlen : (extractFromList env data.scan_date l).length = l.length := by
    unfold extractFromList
    rw [List.length_map, List.enum_length]
  have hext : extractedBlockers net env data u = extractFromList env data.scan_date l := by
    unfold extractedBlockers
    rw [hblock]
    dsimp only
    simp only [List.isEmpty_nil, if_true]
    unfold fallbackExtract firstNonEmptyKey
    rw [haudit]
    dsimp only
    rw [if_neg (by simpa using hne)]
    unfold autoPaginate
    rw [hnopag]
    simp
  have hrc : retryCond data u (extractedBlockers net env data u) = false := by
    rw [hext]
    unfold retryCond
    have : (extractFromList env data.scan_date l).isEmpty = false := by
      cases hx : extractFromList env data.scan_date l with
      | nil =>
        rw [hx] at hlen
        simp at hlen
        exact absurd (List.length_eq_zero.mp hlen.symm) hne
      | cons a as => rfl
    rw [this]
    simp
  have h := loadDataset_no_retry net env fuel url u data hparse hnet hrc
  rw [hext] at h
  exact ⟨h, hlen⟩

/-- Witness for **C5** at a concrete two-row `auditTable` response. -/
theorem loadDataset_auditTable_fallback_witness :
    loadDataset netT envW 1 urlT =
      .ok ({ id := envW.genId, url := urlT, name := deriveName respT urlT,
             blockers := extractFromList envW respT.scan_date
               [{ id := some "x", typeField := some "Img" }, {}],
             timestamp := envW.nowMs }, 0) ∧
    (extractFromList envW respT.scan_date
      [{ id := some "x", typeField := some "Img" }, {}]).length =
      ([{ id := some "x", typeField := some "Img" }, {}] : List RawItem).length :=
  loadDataset_auditTable_fallback netT envW urlT uT respT
    [{ id := some "x", typeField := some "Img" }, {}] 0
    (by decide) rfl rfl rfl (by decide) (by decide)

/-- **C7** — Loading `.../reports/my_site_audit_2024-05-01.json` with no
`audit_name` in the response derives the dataset name
`"My Site Audit (2024-05-01)"` (last path segment, extension stripped, ISO
date removed, `-`/`_` tokens title-cased, date appended parenthetically). -/
theorem loadDataset_name_derivation_example :
    loadDataset netC7 envW 1 urlC7 =
      .ok ({ id := "uuid-1", url := urlC7, name := "My Site Audit (2024-05-01)",
             blockers := [blockerW], timestamp := 1000 }, 0) := by
  rfl

/-- **C8** — `parseMessages` on the bracketed example with a help link:
one entry, rule `"foo-bar"`, description `"Some description"` (trailing
period stripped), help URL captured and the whole matched
`More information: <url>` substring removed from the description. -/
theorem parseMessages_bracket_url_example :
    parseMessages "[foo-bar] Some description. More information: https://example.com/x" =
      [{ id := "viol-0", rule := "foo-bar", description := "Some description",
         helpUrl := some "https://example.com/x",
         raw := "[foo-bar] Some description. More information: https://example.com/x" }] := by
  decide

/-! ## JSON round-trip lemmas for the ignore store -/

theorem jsonEscapeChar_plain (c : Char) (h : PlainChar c) : jsonEscapeChar c = [c] := by
  obtain ⟨h1, h2, h3⟩ := h
  unfold jsonEscapeChar
  rw [if_neg h1, if_neg h2, if_neg, if_neg, if_neg, if_neg, if_neg]
  · intro he; subst he; simp at h3
  · intro he; subst he; simp at h3
  · intro he; subst he; simp at h3
  · intro he; subst he; simp at h3
  · intro he; subst he; simp at h3

theorem escape_plain_flatten (l : List Char) (h : ∀ c ∈ l, PlainChar c) :
    (l.map jsonEscapeChar).flatten = l := by
  induction l with
  | nil => rfl
  | cons c cs ih =>
    rw [List.map_cons, List.flatten_cons, jsonEscapeChar_plain c (h c (List.mem_cons_self c cs)),
      ih fun x hx => h x (List.mem_cons_of_mem c hx)]
    rfl

set_option maxHeartbeats 1000000 in
theorem parseStringAux_cons_plain (c : Char) (l : List Char) (h : PlainChar c) :
    parseStringAux (c :: l) = (parseStringAux l).map fun p => (c :: p.1, p.2) := by
  obtain ⟨h1, h2, h3⟩ := h
  rw [parseStringAux.eq_def]
  split
  · rename_i heq
    simp at heq
  · rename_i rest heq
    injection heq with heq1
    exact absurd heq1 h1
  · rename_i rest heq
    injection heq with heq1
    exact absurd heq1 h2
  · rename_i c2 rest heq
    injection heq with heq1 heq2
    subst heq1
    subst heq2
    rw [if_neg (by omega)]

theorem parseStringAux_closes (s : List Char) (rest : List Char)
    (h : ∀ c ∈ s, PlainChar c) :
    parseStringAux (s ++ '"' :: rest) = .ok (s, rest) := by
  induction s with
  | nil => rfl
  | cons c cs ih =>
    rw [List.cons_append, parseStringAux_cons_plain c _ (h c (List.mem_cons_self c cs)),
      ih fun x hx => h x (List.mem_cons_of_mem c hx)]
    rfl

theorem skipJsonWs_not_ws (c : Char) (l : List Char) (h : isJsonWs c = false) :
    skipJsonWs (c :: l) = c :: l := by
  unfold skipJsonWs
  rw [List.dropWhile_cons, if_neg (by simp [h])]

theorem parseJsonValue_str (f : Nat) (s : String) (rest : List Char)
    (h : ∀ c ∈ s.data, PlainChar c) :
    parseJsonValue (f + 1) ('"' :: (s.data ++ '"' :: rest)) = .ok (.str s, rest) := by
  rw [parseJsonValue, skipJsonWs_not_ws '"' _ (by decide)]
  show (parseStringAux (s.data ++ '"' :: rest)).map
      (fun p => (Json.str (String.mk p.1), p.2)) = .ok (.str s, rest)
  rw [parseStringAux_closes s.data rest h]
  rfl

theorem quotedId_plain (s : String) (h : ∀ c ∈ s.data, PlainChar c) :
    quotedId s = '"' :: (s.data ++ ['"']) := by
  unfold quotedId
  rw [escape_plain_flatten s.data h]

theorem jsonIdsBody_singleton (x : String) : jsonIdsBody [x] = quotedId x := by
  unfold jsonIdsBody
  simp

theorem jsonIdsBody_cons_cons (x y : String) (rest : List String) :
    jsonIdsBody (x :: y :: rest) = quotedId x ++ ',' :: jsonIdsBody (y :: rest) := by
  unfold jsonIdsBody
  rw [List.map_cons, List.map_cons, List.intersperse_cons_cons]
  simp

theorem parseJsonElems_ids : ∀ (ids : List String) (f : Nat) (acc : List Json)
    (rest : List Char), ids ≠ [] → (∀ s ∈ ids, ∀ c ∈ s.data, PlainChar c) →
    ids.length ≤ f →
    parseJsonElems (f + 1) (jsonIdsBody ids ++ ']' :: rest) acc =
      .ok (.arr (acc.reverse ++ ids.map Json.str), rest) := by
  intro ids
  induction ids with
  | nil => intro f acc rest hne; exact absurd rfl hne
  | cons x xs ih =>
    intro f acc rest _ hplain hf
    obtain ⟨f2, rfl⟩ : ∃ f2, f = f2 + 1 := ⟨f - 1, by simp at hf; omega⟩
    cases xs with
    | nil =>
      rw [jsonIdsBody_singleton, quotedId_plain x (hplain x (List.mem_cons_self x [])),
        parseJsonElems]
      rw [show ('"' :: (x.data ++ ['"'])) ++ ']' :: rest =
        '"' :: (x.data ++ '"' :: (']' :: rest)) by simp]
      rw [parseJsonValue_str f2 x (']' :: rest) (hplain x (List.mem_cons_self x []))]
      dsimp only
      rw [skipJsonWs_not_ws ']' _ (by decide)]
      simp
    | cons y ys =>
      rw [jsonIdsBody_cons_cons, quotedId_plain x (hplain x (List.mem_cons_self x (y :: ys))),
        parseJsonElems]
      rw [show (('"' :: (x.data ++ ['"'])) ++ ',' :: jsonIdsBody (y :: ys)) ++ ']' :: rest =
        '"' :: (x.data ++ '"' :: (',' :: (jsonIdsBody (y :: ys) ++ ']' :: rest))) by simp]
      rw [parseJsonValue_str f2 x _ (hplain x (List.mem_cons_self x (y :: ys)))]
      dsimp only
      rw [skipJsonWs_not_ws ',' _ (by decide)]
      show parseJsonElems (f2 + 1) (jsonIdsBody (y :: ys) ++ ']' :: rest)
        (Json.str x :: acc) = _
      rw [ih f2 (Json.str x :: acc) rest (by simp)
        (fun s hs => hplain s (List.mem_cons_of_mem x hs)) (by simp at hf ⊢; omega)]
      simp

theorem jsonIdsBody_len : ∀ ids : List String, ids.length ≤ (jsonIdsBody ids).length := by
  intro ids
  induction ids with
  | nil => simp [jsonIdsBody]
  | cons x xs ih =>
    cases xs with
    | nil =>
      rw [jsonIdsBody_singleton]
      unfold quotedId
      simp
    | cons y ys =>
      rw [jsonIdsBody_cons_cons]
      unfold quotedId
      simp only [List.length_cons, List.length_append] at ih ⊢
      omega

theorem jsonParse_stringifyIds (ids : List String)
    (h : ∀ s ∈ ids, ∀ c ∈ s.data, PlainChar c) :
    jsonParse (stringifyIds ids) = .ok (.arr (ids.map Json.str)) := by
  cases ids with
  | nil => rfl
  | cons x xs =>
    obtain ⟨t, ht⟩ : ∃ t, jsonIdsBody (x :: xs) = '"' :: t := by
      cases xs with
      | nil =>
        rw [jsonIdsBody_singleton]
        unfold quotedId
        exact ⟨_, rfl⟩
      | cons y ys =>
        rw [jsonIdsBody_cons_cons]
        unfold quotedId
        exact ⟨_, rfl⟩
    have hlen : (x :: xs).length ≤ 2 * (stringifyIds (x :: xs)).length := by
      have h1 := jsonIdsBody_len (x :: xs)
      have h2 : (stringifyIds (x :: xs)).length = (jsonIdsBody (x :: xs)).length + 2 := by
        show ('[' :: (jsonIdsBody (x :: xs) ++ [']'])).length = _
        simp
      omega
    obtain ⟨F, hF⟩ : ∃ F, 2 * (stringifyIds (x :: xs)).length + 2 = (F + 1) + 1 :=
      ⟨2 * (stringifyIds (x :: xs)).length, by omega⟩
    have helems := parseJsonElems_ids (x :: xs) F [] [] (by simp) h
      (by simp only [List.length_cons] at hlen ⊢; omega)
    rw [show jsonIdsBody (x :: xs) ++ ']' :: ([] : List Char) = '"' :: (t ++ [']'])
      from by rw [ht]; rfl] at helems
    have hdata : (stringifyIds (x :: xs)).data = '[' :: (jsonIdsBody (x :: xs) ++ [']']) := rfl
    unfold jsonParse
    rw [hdata, hF]
    rw [show '[' :: (jsonIdsBody (x :: xs) ++ [']']) = '[' :: ('"' :: (t ++ [']']))
      from by rw [ht]; rfl]
    have hval : parseJsonValue ((F + 1) + 1) ('[' :: ('"' :: (t ++ [']']))) =
        .ok (.arr (([] : List Json).reverse ++ (x :: xs).map Json.str), []) := by
      rw [parseJsonValue, skipJsonWs_not_ws '[' _ (by decide)]
      show (match skipJsonWs ('"' :: (t ++ [']'])) with
            | ']' :: r2 => Except.ok (Json.arr [], r2)
            | _ => parseJsonElems (F + 1) ('"' :: (t ++ [']'])) []) = _
      rw [skipJsonWs_not_ws '"' _ (by decide)]
      show parseJsonElems (F + 1) ('"' :: (t ++ [']'])) [] = _
      exact helems
    rw [hval]
    simp [skipJsonWs]

/-- **C1 (counterexample)** — A present but unparsable stored value makes
`getIgnoredIds` propagate the `JSON.parse` exception instead of returning
the empty sequence: the claim's "never throws" fails. -/
theorem getIgnoredIds_throws_on_corrupt :
    getIgnoredIds (some "oops") = .error "Unexpected token in JSON" := rfl

/-- **C1 (amended)** — `getIgnoredIds` returns the empty sequence when
storage is absent, returns the persisted ordered id sequence whenever the
stored value is a stringified id array (ids of unescaped characters
round-trip verbatim), but propagates the `JSON.parse` exception — rather
than returning the empty sequence — when the stored value is present,
nonempty and unparsable. -/
theorem getIgnoredIds_amended :
    getIgnoredIds none = .ok (Json.arr []) ∧
    (∀ ids : List String, (∀ s ∈ ids, ∀ c ∈ s.data, PlainChar c) →
      getIgnoredIds (some (stringifyIds ids)) = .ok (.arr (ids.map Json.str))) ∧
    (∀ s e : String, s ≠ "" → jsonParse s = .error e →
      getIgnoredIds (some s) = .error e) := by
  refine ⟨rfl, ?_, ?_⟩
  · intro ids hplain
    show (if stringifyIds ids = "" then Except.ok (Json.arr [])
      else jsonParse (stringifyIds ids)) = _
    rw [if_neg (mk_ne_empty_of_ne_nil (by simp [stringifyIds]))]
    exact jsonParse_stringifyIds ids hplain
  · intro s e hne herr
    show (if s = "" then Except.ok (Json.arr []) else jsonParse s) = _
    rw [if_neg hne]
    exact herr

/-- Witness for **C1 (amended)**: a concrete persisted array round-trips,
and a concrete corrupt value surfaces the parse error. -/
theorem getIgnoredIds_amended_witness :
    getIgnoredIds (some (stringifyIds ["a", "b"])) =
      .ok (.arr (["a", "b"].map Json.str)) ∧
    getIgnoredIds (some "not json") = .error "Unexpected token in JSON" :=
  ⟨getIgnoredIds_amended.2.1 ["a", "b"] (by decide),
   getIgnoredIds_amended.2.2 "not json" "Unexpected token in JSON" (by decide) (by rfl)⟩

end EV
